import Mathlib

/-!
Verification of the FSD → UDD conversion pipeline.

This file gives a shallow embedding, in Lean, of the parsing and
orchestration logic of the repository:

* `app/section_extractor.py` — the FSD sectionizer (`parse_fsd_sections`)
  and the slice resolver (`extract_relevant_fsd_slice`);
* `app/rag_loader.py` — the template-block parser (`_parse_rag_block`) and
  the block loader (`load_rag_sections`, modelled from the text content of
  the file it reads);
* `app/docx_builder.py` — the table-chunk classifier
  (`find_all_table_like_chunks`) and the markdown-table parser
  (`parse_markdown_table`);
* `app/llm_orchestrator.py` — the generation loop (`generate_udd_sections`),
  with the LLM modelled as an opaque function returning `Except`.

Strings are modelled as `List Char` internally (Python `str` values in the
sources are ASCII for all inputs of interest; the Unicode-only aspects of
Python's `\s`, `\d` and `str.lower` are outside the modelled fragment).
Python regular-expression operations are translated to explicit scanning
functions.  Where a scan is not structurally recursive it takes an explicit
fuel argument; fuel is always instantiated with the length of the scanned
list, which suffices because every recursive step consumes at least one
character (element), so the definitions are total and executable.

Python dicts are modelled as association lists with insert-or-update
semantics preserving insertion order (`insertAD`), which is exactly the
observable behaviour of a Python `dict` built by repeated assignment.
-/

namespace FSDUDD

/-! ## Character classes and primitive string operations -/

/-- Python `\s` / `str.strip()` whitespace, ASCII fragment:
space, tab, newline, carriage return, vertical tab, form feed. -/
def isPySpace (c : Char) : Bool :=
  c = ' ' ∨ c = '\t' ∨ c = '\n' ∨ c = '\x0d' ∨ c = '\x0b' ∨ c = '\x0c'

/-- Python `\d`, ASCII fragment. -/
def isDigitC (c : Char) : Bool := '0' ≤ c ∧ c ≤ '9'

/-- Python `str.strip()` with no argument: remove leading and trailing
whitespace. -/
def pyStrip (cs : List Char) : List Char :=
  ((cs.dropWhile isPySpace).reverse.dropWhile isPySpace).reverse

/-- `str.strip()` lifted to `String`. -/
def pyStripStr (s : String) : String := String.mk (pyStrip s.data)

/-- `text.replace("\r", "")` (line 23 of `section_extractor.py`). -/
def removeCR (cs : List Char) : List Char := cs.filter (fun c => c ≠ '\x0d')

/-- Skip a maximal run of whitespace (the `\s*` of the regexes). -/
def dropWs (cs : List Char) : List Char := cs.dropWhile isPySpace

/-- Length of the maximal whitespace prefix. -/
def wsRun (cs : List Char) : Nat := (cs.takeWhile isPySpace).length

/-- Case-sensitive literal prefix removal. -/
def stripPrefixCS : List Char → List Char → Option (List Char)
  | [], cs => some cs
  | _ :: _, [] => none
  | p :: ps, c :: cs => if p = c then stripPrefixCS ps cs else none

/-- Case-insensitive literal prefix removal (`re.IGNORECASE`, ASCII). -/
def stripPrefixCI : List Char → List Char → Option (List Char)
  | [], cs => some cs
  | _ :: _, [] => none
  | p :: ps, c :: cs => if p.toLower = c.toLower then stripPrefixCI ps cs else none

/-- Python `"sep".join(xs)`. -/
def pyJoin (sep : String) : List String → String
  | [] => ""
  | [s] => s
  | s :: rest => s ++ sep ++ pyJoin sep rest

/-- Python `str.splitlines()` restricted to `'\n'` terminators:
`""` gives `[]`, a trailing newline does not produce a final empty line. -/
def splitlinesAux : List Char → List Char → List (List Char)
  | acc, [] => [acc.reverse]
  | acc, c :: rest =>
    if c = '\n' then
      if rest.isEmpty then [acc.reverse] else acc.reverse :: splitlinesAux [] rest
    else splitlinesAux (c :: acc) rest

/-- Python `str.splitlines()` (newline-only fragment). -/
def pySplitlines (cs : List Char) : List (List Char) :=
  if cs.isEmpty then [] else splitlinesAux [] cs

/-- Python `str.split(sep)` for a one-character separator: empty pieces are
kept and the result is always non-empty (`"".split(c) = [""]`). -/
def splitOnCharAux (sep : Char) : List Char → List Char → List (List Char)
  | acc, [] => [acc.reverse]
  | acc, c :: rest =>
    if c = sep then acc.reverse :: splitOnCharAux sep [] rest
    else splitOnCharAux sep (c :: acc) rest

/-- Python `str.split(sep)` for a one-character separator. -/
def splitOnChar (sep : Char) (cs : List Char) : List (List Char) :=
  splitOnCharAux sep [] cs

/-! ## Association lists with Python-`dict` semantics -/

/-- `d[k] = v` on a Python dict: update in place if the key exists,
otherwise append; insertion order is preserved. -/
def insertAD {α : Type} : List (String × α) → String → α → List (String × α)
  | [], k, v => [(k, v)]
  | (k₀, v₀) :: m, k, v =>
    if k₀ = k then (k₀, v) :: m else (k₀, v₀) :: insertAD m k v

/-- `d.get(k)` on a Python dict. -/
def lookupAD {α : Type} : List (String × α) → String → Option α
  | [], _ => none
  | (k₀, v₀) :: m, k => if k₀ = k then some v₀ else lookupAD m k

/-! ## `section_extractor.py` — the FSD sectionizer

`SECTION_HEADER_REGEX = ^\s*SECTION\s*[:\-]\s*(\d+(?:\.\d+)*)`, with
`IGNORECASE | MULTILINE`; the newline-forcing substitution uses the
case-sensitive pattern `\s*(?=SECTION\s*[:\-]\s*\d+(?:\.\d+)*)`. -/

/-- Greedy `(?:\.\d+)*`: consume as many `"." digits+` groups as possible.
Each successful step consumes at least two characters, so fuel equal to the
input length (plus one) suffices. -/
def readDotGroupsAux : Nat → List Char → List Char × List Char
  | 0, cs => ([], cs)
  | _ + 1, [] => ([], [])
  | fuel + 1, c :: rest =>
    if c = '.' then
      let ds := rest.takeWhile isDigitC
      if ds.isEmpty then ([], c :: rest)
      else
        let pr := readDotGroupsAux fuel (rest.dropWhile isDigitC)
        ('.' :: ds ++ pr.1, pr.2)
    else ([], c :: rest)

/-- Greedy `\d+(?:\.\d+)*`: the dotted numeric identifier.  Returns the
matched identifier and the remaining input, or `none` if no digit is
present. -/
def readNumber (cs : List Char) : Option (List Char × List Char) :=
  let ds := cs.takeWhile isDigitC
  if ds.isEmpty then none
  else
    let rest := cs.dropWhile isDigitC
    let pr := readDotGroupsAux (rest.length + 1) rest
    some (ds ++ pr.1, pr.2)

/-- `SECTION\s*[:\-]\s*(\d+(?:\.\d+)*)` matched case-insensitively at the
head of the input; on success returns the identifier (capture group) and the
input remaining after it (i.e. after `m.end()`). -/
def afterMarkerCI (cs : List Char) : Option (List Char × List Char) :=
  match stripPrefixCI "SECTION".data cs with
  | none => none
  | some cs1 =>
    match dropWs cs1 with
    | [] => none
    | c :: cs2 =>
      if c = ':' ∨ c = '-' then readNumber (dropWs cs2) else none

/-- Success of the case-sensitive lookahead
`(?=SECTION\s*[:\-]\s*\d+(?:\.\d+)*)` at the head of the input. -/
def isSectionStartCS (cs : List Char) : Bool :=
  match stripPrefixCS "SECTION".data cs with
  | none => false
  | some cs1 =>
    match dropWs cs1 with
    | [] => false
    | c :: cs2 =>
      ((c = ':' ∨ c = '-') : Bool) ∧ (readNumber (dropWs cs2)).isSome

/-- `re.sub(r"\s*(?=SECTION\s*[:\-]\s*\d+(?:\.\d+)*)", "\n", text)`
(lines 26–30 of `section_extractor.py`), with Python ≥ 3.7 semantics:
a non-empty whitespace run immediately preceding a marker is replaced by a
newline, and an empty match directly at a marker (including one adjacent to
the end of a previous non-empty match) also inserts a newline before the
marker.  Every step consumes at least one character, so fuel equal to the
input length suffices. -/
def forceNLAux : Nat → List Char → List Char
  | 0, cs => cs
  | fuel + 1, cs =>
    match cs with
    | [] => []
    | c :: rest =>
      let j := wsRun (c :: rest)
      if isSectionStartCS ((c :: rest).drop j) then
        if j = 0 then '\n' :: c :: forceNLAux fuel rest
        else '\n' :: forceNLAux fuel ((c :: rest).drop j)
      else c :: forceNLAux fuel rest

/-- The newline-forcing substitution. -/
def forceNL (cs : List Char) : List Char := forceNLAux cs.length cs

/-- `re.sub(r"\n{2,}", "\n", text)` (line 33): collapse every run of two or
more newlines into a single newline (a lone newline maps to itself, so every
maximal newline run becomes one newline). -/
def collapseAux : Nat → List Char → List Char
  | 0, cs => cs
  | fuel + 1, cs =>
    match cs with
    | [] => []
    | c :: rest =>
      if c = '\n' then '\n' :: collapseAux fuel (rest.dropWhile (fun x => x = '\n'))
      else c :: collapseAux fuel rest

/-- The blank-line collapsing substitution. -/
def collapseNL (cs : List Char) : List Char := collapseAux cs.length cs

/-- `^\s*SECTION\s*[:\-]\s*(\d+(?:\.\d+)*)` tried at one position (the `^`
has already been established by the caller): leading whitespace (which may
span newlines), then the case-insensitive marker. -/
def matchHeader (cs : List Char) : Option (List Char × List Char) :=
  afterMarkerCI (dropWs cs)

/-- `finditer` of `SECTION_HEADER_REGEX` over the normalized text:
scan left to right, attempting the anchored pattern only at line starts
(position 0 or directly after a newline — `re.MULTILINE`), resuming after
the end of each match (matches do not overlap).  Returns
`(identifier, m.start(), m.end())` triples.  Every step consumes at least
one character, so fuel equal to the input length suffices. -/
def findMarkersAux : Nat → List Char → Nat → Bool → List (List Char × Nat × Nat)
  | 0, _, _, _ => []
  | fuel + 1, cs, pos, atStart =>
    match cs with
    | [] => []
    | c :: rest =>
      if atStart then
        match matchHeader (c :: rest) with
        | some (ident, after) =>
          let e := pos + ((c :: rest).length - after.length)
          (ident, pos, e) :: findMarkersAux fuel after e false
        | none => findMarkersAux fuel rest (pos + 1) (c = '\n')
      else findMarkersAux fuel rest (pos + 1) (c = '\n')

/-- All header matches of the normalized text. -/
def findMarkers (cs : List Char) : List (List Char × Nat × Nat) :=
  findMarkersAux cs.length cs 0 true

/-- The normalization pipeline of `parse_fsd_sections` (lines 23–33):
strip carriage returns, force a newline before every marker, collapse blank
lines. -/
def normalizeFSD (s : String) : List Char :=
  collapseNL (forceNL (removeCR s.data))

/-- The content slice for one match (lines 42–47): from `m.end()` to the
start of the next match (or end of text), stripped. -/
def buildPairs (ns : List Char) : List (List Char × Nat × Nat) → List (String × String)
  | [] => []
  | (ident, _, e) :: rest =>
    let stop : Nat :=
      match rest with
      | [] => ns.length
      | (_, s2, _) :: _ => s2
    (String.mk (pyStrip ident), String.mk (pyStrip ((ns.drop e).take (stop - e)))) ::
      buildPairs ns rest

/-- The ordered `(identifier, body)` pairs of the sectionized FSD, in
document order, before insertion into the dict (so with duplicates still
present). -/
def sectionPairs (s : String) : List (String × String) :=
  let ns := normalizeFSD s
  buildPairs ns (findMarkers ns)

/-- `parse_fsd_sections` (lines 19–57 of `section_extractor.py`): the
sectionized FSD as a dict; a repeated identifier overwrites its earlier
entry. -/
def parse_fsd_sections (s : String) : List (String × String) :=
  (sectionPairs s).foldl (fun m kv => insertAD m kv.1 kv.2) []

/-! ## `section_extractor.py` — the slice resolver -/

/-- `SectionMapper.keywords_for` (`section_mapper.py`, lines 26–38):
`self.map.get(udd_section, [])`. -/
def keywords_for (mapper : List (String × List String)) (udd : String) : List String :=
  (lookupAD mapper udd).getD []

/-- The `combined` accumulator of `extract_relevant_fsd_slice`
(lines 76–86): the bodies of the mapped identifiers (each stripped before
lookup) that occur in the sectionized FSD, in map-list order; identifiers
absent from the sectionized FSD are skipped. -/
def foundBodies (fsd udd : String) (mapper : List (String × List String)) : List String :=
  (keywords_for mapper udd).filterMap
    (fun k => lookupAD (parse_fsd_sections fsd) (pyStripStr k))

/-- `extract_relevant_fsd_slice` (lines 63–97 of `section_extractor.py`):
join the found bodies with a blank line (`"\n\n".join(combined)`); if none
was found, return the original text. -/
def extract_relevant_fsd_slice (fsd udd : String)
    (mapper : List (String × List String)) : String :=
  if foundBodies fsd udd mapper = [] then fsd
  else pyJoin "\x0a\x0a" (foundBodies fsd udd mapper)

end FSDUDD

namespace FSDUDD

/-! ## Supporting lemmas -/

/-- Joining at least two strings with the blank-line separator is never
empty. -/
lemma pyJoin_two_ne (a b : String) (l : List String) :
    pyJoin "\x0a\x0a" (a :: b :: l) ≠ "" := by
  intro h
  have hd : (pyJoin "\x0a\x0a" (a :: b :: l)).data = [] := by rw [h]
  simp [pyJoin, String.data_append] at hd

/-- Looking up after a dict insertion. -/
lemma lookupAD_insertAD {α : Type} (m : List (String × α)) (k k' : String) (v : α) :
    lookupAD (insertAD m k v) k' = if k = k' then some v else lookupAD m k' := by
  induction m with
  | nil => simp [insertAD, lookupAD]
  | cons p m ih =>
    obtain ⟨k₀, v₀⟩ := p
    by_cases h₀ : k₀ = k
    · subst h₀
      by_cases h₁ : k₀ = k' <;> simp [insertAD, lookupAD, h₁]
    · by_cases h₁ : k₀ = k'
      · subst h₁
        have hkk : ¬k = k₀ := fun hx => h₀ hx.symm
        simp [insertAD, lookupAD, h₀, hkk]
      · simp [insertAD, lookupAD, h₀, h₁, ih]

/-- Looking up in the dict built by a left fold of insertions equals folding
the "last assignment wins" accumulator over the pair list. -/
lemma lookupAD_foldl_insertAD (ps : List (String × String)) (acc : List (String × String))
    (k : String) :
    lookupAD (ps.foldl (fun m kv => insertAD m kv.1 kv.2) acc) k =
      ps.foldl (fun r p => if p.1 = k then some p.2 else r) (lookupAD acc k) := by
  induction ps generalizing acc with
  | nil => rfl
  | cons p ps ih =>
    simp only [List.foldl_cons, ih, lookupAD_insertAD]

/-- The body associated with the last occurrence of a key in an ordered pair
list (`none` if the key never occurs). -/
def lastAssoc (ps : List (String × String)) (k : String) : Option String :=
  ps.foldl (fun r p => if p.1 = k then some p.2 else r) none

/-! ## Claims about the sectionizer and the slice resolver -/

/-- C1: if no mapped identifier for the UDD section is found in the
sectionized FSD — because the map has no entry for that name or because none
of its listed identifiers (after stripping) occurs as a section identifier —
then `extract_relevant_fsd_slice` returns the original `fsdText`
unchanged. -/
theorem C1_fallback_returns_original (fsd udd : String)
    (mapper : List (String × List String))
    (h : ∀ k ∈ keywords_for mapper udd,
      lookupAD (parse_fsd_sections fsd) (pyStripStr k) = none) :
    extract_relevant_fsd_slice fsd udd mapper = fsd := by
  have hnil : foundBodies fsd udd mapper = [] := List.filterMap_eq_nil_iff.mpr h
  unfold extract_relevant_fsd_slice
  rw [if_pos hnil]

/-- Witness for C1, at the spec's own "partial fallback" example: the map
sends `"X"` to identifier `"9"`, which is absent from the FSD, and the full
original FSD comes back. -/
theorem C1_witness :
    (∀ k ∈ keywords_for [("X", ["9"])] "X",
      lookupAD (parse_fsd_sections "SECTION: 1\x0aA") (pyStripStr k) = none) ∧
    extract_relevant_fsd_slice "SECTION: 1\x0aA" "X" [("X", ["9"])] = "SECTION: 1\x0aA" :=
  ⟨by decide, C1_fallback_returns_original _ _ _ (by decide)⟩

/-- C2 counterexample: the claim "`extract_relevant_fsd_slice` never returns
an empty string for a non-empty `fsdText`" fails at `fsdText = "SECTION: 1"`
with map `{"X": ["1"]}`: identifier `"1"` is present but its body is empty,
and the function returns `""`. -/
theorem C2_counterexample :
    ("SECTION: 1" : String) ≠ "" ∧
    extract_relevant_fsd_slice "SECTION: 1" "X" [("X", ["1"])] = "" := by
  constructor
  · decide
  · decide

/-- C2 (amended): for non-empty `fsdText`, `extract_relevant_fsd_slice`
returns the empty string exactly when the mapped identifiers found in the
sectionized FSD contribute exactly one body and that body is empty; in every
other case (several bodies, at least one non-empty body, or the full-FSD
fallback) the result is non-empty. -/
theorem C2_empty_result_characterization (fsd udd : String)
    (mapper : List (String × List String)) (h : fsd ≠ "") :
    extract_relevant_fsd_slice fsd udd mapper = "" ↔
      foundBodies fsd udd mapper = [""] := by
  unfold extract_relevant_fsd_slice
  cases hc : foundBodies fsd udd mapper with
  | nil => simp [h]
  | cons a t =>
    cases t with
    | nil => simp [pyJoin]
    | cons b u =>
      simp only [List.cons_ne_nil, if_false, reduceCtorEq]
      constructor
      · intro hx; exact absurd hx (pyJoin_two_ne a b u)
      · intro hx; simp at hx

/-- Witness for C2 (amended), at the counterexample input: the FSD is
non-empty, the resolver returns `""`, and indeed the found bodies are
exactly `[""]`. -/
theorem C2_witness :
    ("SECTION: 1" : String) ≠ "" ∧
    (extract_relevant_fsd_slice "SECTION: 1" "X" [("X", ["1"])] = "" ↔
      foundBodies "SECTION: 1" "X" [("X", ["1"])] = [""]) :=
  ⟨by decide, C2_empty_result_characterization _ _ _ (by decide)⟩

/-- C3: a repeated section identifier maps to the body of its last
occurrence — in general, looking up any identifier in the parsed dict gives
the body of its last occurrence in the ordered pair list of the sectionized
FSD; in particular `parse_fsd_sections "SECTION: 1\nA\nSECTION: 1\nB"`
equals `{"1": "B"}`. -/
theorem C3_last_write_wins :
    (∀ (fsd : String) (id : String),
      lookupAD (parse_fsd_sections fsd) id = lastAssoc (sectionPairs fsd) id) ∧
    parse_fsd_sections "SECTION: 1\x0aA\x0aSECTION: 1\x0aB" = [("1", "B")] := by
  constructor
  · intro fsd id
    unfold parse_fsd_sections lastAssoc
    rw [lookupAD_foldl_insertAD]
    rfl
  · decide

/-- C8: when at least one mapped identifier is found, the resolver returns
the bodies of the identifiers present in the sectionized FSD, in map-list
order, joined with a blank line, silently skipping absent identifiers (they
simply contribute nothing to `foundBodies`); in particular with map
`{"X": ["1","2"]}` over an FSD whose sections are
`{"1": "Alpha", "2": "Beta"}` the result is `"Alpha\n\nBeta"`. -/
theorem C8_multi_key_join (fsd udd : String) (mapper : List (String × List String))
    (h : foundBodies fsd udd mapper ≠ []) :
    extract_relevant_fsd_slice fsd udd mapper =
      pyJoin "\x0a\x0a" (foundBodies fsd udd mapper) ∧
    extract_relevant_fsd_slice "SECTION: 1\x0aAlpha\x0aSECTION: 2\x0aBeta" "X"
        [("X", ["1", "2"])] = "Alpha\x0a\x0aBeta" := by
  constructor
  · unfold extract_relevant_fsd_slice
    rw [if_neg h]
  · decide

/-- Witness for C8: the instance hypothesis holds and the theorem applies. -/
theorem C8_witness :
    foundBodies "SECTION: 1\x0aAlpha\x0aSECTION: 2\x0aBeta" "X" [("X", ["1", "2"])] ≠ [] ∧
    extract_relevant_fsd_slice "SECTION: 1\x0aAlpha\x0aSECTION: 2\x0aBeta" "X"
        [("X", ["1", "2"])] = "Alpha\x0a\x0aBeta" :=
  ⟨by decide, (C8_multi_key_join "SECTION: 1\x0aAlpha\x0aSECTION: 2\x0aBeta" "X"
    [("X", ["1", "2"])] (by decide)).2⟩

/-- C10: the sectionizer recognizes a marker whose literal `SECTION` is the
suffix of a longer word: the newline-forcing preprocessing inserts a line
break immediately before the marker pattern with no word-boundary check, so
`"SUBSECTION: 2 body"` normalizes to `"SUB\nSECTION: 2 body"` and parses to
`{"2": "body"}` instead of being treated as plain text. -/
theorem C10_no_word_boundary :
    parse_fsd_sections "SUBSECTION: 2 body" = [("2", "body")] ∧
    normalizeFSD "SUBSECTION: 2 body" = "SUB\x0aSECTION: 2 body".data := by
  constructor
  · decide
  · decide

/-! ## `rag_loader.py` — template blocks -/

/-- The template record built by `_parse_rag_block` (`rag_loader.py`,
lines 21–27). -/
structure RagSection where
  name : String
  type : String
  description : String
  prompt : String
  fields : Option (List String)
deriving DecidableEq

/-- Decidable equality for `Except`, needed to evaluate concrete block
parses. -/
instance {ε α : Type} [DecidableEq ε] [DecidableEq α] : DecidableEq (Except ε α) := fun x y =>
  match x, y with
  | .ok a, .ok b => decidable_of_iff (a = b) (by simp)
  | .error a, .error b => decidable_of_iff (a = b) (by simp)
  | .ok _, .error _ => isFalse (by simp)
  | .error _, .ok _ => isFalse (by simp)

/-- A character of the key part of `^[a-zA-Z_]+:\s*`. -/
def isKeyChar (c : Char) : Bool :=
  ('a' ≤ c ∧ c ≤ 'z') ∨ ('A' ≤ c ∧ c ≤ 'Z') ∨ c = '_'

/-- `re.match(r"^[a-zA-Z_]+:\s*", ln)` succeeds: one or more key characters
followed directly by a colon (the trailing `\s*` always matches). -/
def isKeyLine (ln : List Char) : Bool :=
  let ks := ln.takeWhile isKeyChar
  (¬ks.isEmpty) ∧ (ln.drop ks.length).head? = some ':'

/-- `flush_key` (lines 49–56): commit the value lines accumulated for the
current key, joined with single spaces and stripped. -/
def flushKV (acc : List (String × String)) (cur : Option String)
    (vals : List String) : List (String × String) :=
  match cur with
  | none => acc
  | some k => insertAD acc k (pyStripStr (pyJoin " " vals))

/-- The key/value accumulation loop over the block's lines (lines 58–66):
a key line flushes the previous key and starts a new one
(`k, v = ln.split(":", 1)`); any other line continues the current value. -/
def kvLoop : List (List Char) → List (String × String) → Option String →
    List String → List (String × String)
  | [], acc, cur, vals => flushKV acc cur vals
  | ln :: rest, acc, cur, vals =>
    if isKeyLine ln then
      let k := ln.takeWhile (fun c => c ≠ ':')
      let v := ln.drop (k.length + 1)
      kvLoop rest (flushKV acc cur vals) (some (String.mk (pyStrip k)))
        [String.mk (pyStrip v)]
    else kvLoop rest acc cur (vals ++ [String.mk (pyStrip ln)])

/-- Parsing of the `fields` value (lines 76–87): a bracket-delimited comma
list (`re.match(r"^\[(.*)\]$", raw)`) or a bare comma list; entries are
trimmed and empty entries dropped in both forms. -/
def parseFields (raw : String) : List String :=
  let cs := raw.data
  if cs.head? = some '[' ∧ cs.getLast? = some ']' then
    ((splitOnChar ',' (cs.drop 1).dropLast).map (fun p => String.mk (pyStrip p))).filter
      (fun p => p ≠ "")
  else
    ((splitOnChar ',' cs).map (fun p => String.mk (pyStrip p))).filter (fun p => p ≠ "")

/-- `_parse_rag_block` (lines 34–98), on the block's characters: strip the
block, split into lines, strip each line and drop blank ones; fail unless
the first line starts with `'#'`; otherwise read the name from the first
line and the key/values from the rest, with defaults
`type="text"`, `description=""`, `prompt=""` and optional `fields`. -/
def parseRagBlockL (block : List Char) : Except String RagSection :=
  let lines := ((pySplitlines (pyStrip block)).map pyStrip).filter (fun l => ¬l.isEmpty)
  match lines with
  | [] => Except.error "RAG section must start with \x27#Section Name\x27"
  | l0 :: restLines =>
    if l0.head? = some '#' then
      let keyvals := kvLoop restLines [] none []
      Except.ok
        { name := String.mk (pyStrip (l0.drop 1))
          type := (lookupAD keyvals "type").getD "text"
          description := (lookupAD keyvals "description").getD ""
          prompt := (lookupAD keyvals "prompt").getD ""
          fields :=
            match lookupAD keyvals "fields" with
            | none => none
            | some raw => some (parseFields raw) }
    else Except.error "RAG section must start with \x27#Section Name\x27"

/-- `_parse_rag_block` on a `String`. -/
def parseRagBlock (block : String) : Except String RagSection :=
  parseRagBlockL block.data

/-- `re.split(r"\n(?=#)", text)`: cut at every newline directly followed by
`'#'`; the newline is consumed. -/
def splitBlocksAux : List Char → List Char → List (List Char)
  | acc, [] => [acc.reverse]
  | acc, c :: rest =>
    if c = '\n' ∧ rest.head? = some '#' then acc.reverse :: splitBlocksAux [] rest
    else splitBlocksAux (c :: acc) rest

/-- `re.split(r"\n(?=#)", text)`. -/
def splitBlocks (cs : List Char) : List (List Char) := splitBlocksAux [] cs

/-- `load_rag_sections` (lines 105–134), modelled from the text content of
the resource (the file-existence check and file read of lines 111–116 are
I/O and outside the model): split the stripped text into blocks, parse each
non-blank block, and skip — rather than propagate — any block whose parse
fails. -/
def load_rag_sections_from_text (text : String) : List RagSection :=
  (splitBlocks (pyStrip text.data)).filterMap (fun b =>
    if ¬(pyStrip b).isEmpty then
      match parseRagBlockL b with
      | Except.ok s => some s
      | Except.error _ => none
    else none)

/-! ## Claims about the template loader -/

/-- The first non-blank (after stripping) line of a block, if any. -/
def firstNonBlankLine (block : String) : Option (List Char) :=
  (((pySplitlines (pyStrip block.data)).map pyStrip).filter (fun l => ¬l.isEmpty)).head?

/-- C7: template loading is block-wise recoverable — parsing a single block
fails exactly when the block has no non-blank line or its first non-blank
line does not start with `'#'`; and the loader returns every successfully
parsed block even when other blocks fail (a malformed block is skipped, not
fatal). -/
theorem C7_blockwise_recoverable :
    (∀ block : String,
      (∃ e, parseRagBlock block = Except.error e) ↔
        (match firstNonBlankLine block with
         | none => True
         | some l => l.head? ≠ some '#')) ∧
    (∀ (text : String) (b : List Char) (sec : RagSection),
      b ∈ splitBlocks (pyStrip text.data) →
      parseRagBlockL b = Except.ok sec →
      sec ∈ load_rag_sections_from_text text) := by
  constructor
  · intro block
    unfold parseRagBlock parseRagBlockL firstNonBlankLine
    cases hl : ((pySplitlines (pyStrip block.data)).map pyStrip).filter (fun l => ¬l.isEmpty) with
    | nil => simp
    | cons l0 rest =>
      by_cases h0 : l0.head? = some '#'
      · simp [h0]
      · simp [h0]
  · intro text b sec hmem hok
    unfold load_rag_sections_from_text
    apply List.mem_filterMap.mpr
    refine ⟨b, hmem, ?_⟩
    have hne : ¬(pyStrip b).isEmpty := by
      intro hemp
      rw [parseRagBlockL] at hok
      rw [pySplitlines, if_pos hemp] at hok
      simp at hok
    simp [hne, hok]

/-- Witness for C7: in `"junk\n#A\ntype: x"` the first block `"junk"` is
malformed (no leading `'#'`), yet the block `"#A\ntype: x"` parses and is
returned by the loader. -/
theorem C7_witness :
    ((∃ e, parseRagBlock "junk" = Except.error e) ↔
      (match firstNonBlankLine "junk" with
       | none => True
       | some l => l.head? ≠ some '#')) ∧
    (⟨"A", "x", "", "", none⟩ : RagSection) ∈
      load_rag_sections_from_text "junk\x0a#A\x0atype: x" :=
  ⟨C7_blockwise_recoverable.1 "junk",
   C7_blockwise_recoverable.2 "junk\x0a#A\x0atype: x" "#A\x0atype: x".data
     ⟨"A", "x", "", "", none⟩ (by decide) (by decide)⟩

/-- C9: the `fields` value is parsed identically whether written
bracket-delimited or as a bare comma list (entries trimmed, empty entries
dropped); in particular `fields: [Name, Type, Description]` yields
`["Name","Type","Description"]` and `fields: Name, Type` yields
`["Name","Type"]`. -/
theorem C9_fields_bracket_or_bare :
    (∀ s : String, ¬(s.data.head? = some '[' ∧ s.data.getLast? = some ']') →
      parseFields ("[" ++ s ++ "]") = parseFields s) ∧
    parseRagBlock "#T\x0afields: [Name, Type, Description]" =
      Except.ok ⟨"T", "text", "", "", some ["Name", "Type", "Description"]⟩ ∧
    parseRagBlock "#T\x0afields: Name, Type" =
      Except.ok ⟨"T", "text", "", "", some ["Name", "Type"]⟩ := by
  refine ⟨?_, by decide, by decide⟩
  intro s h
  unfold parseFields
  have hdata : ("[" ++ s ++ "]").data = '[' :: s.data ++ [']'] := by
    simp [String.data_append]
  have hlast : ('[' :: (s.data ++ [']'])).getLast? = some ']' := by
    rw [← List.cons_append]
    exact List.getLast?_concat _
  rw [hdata, if_pos ⟨rfl, hlast⟩, if_neg h]
  simp [List.dropLast_concat]

/-- Witness for C9: the bracketed and bare spellings of `"Name, Type"`
parse to the same field list. -/
theorem C9_witness :
    ¬(("Name, Type" : String).data.head? = some '[' ∧
        ("Name, Type" : String).data.getLast? = some ']') ∧
    parseFields ("[" ++ "Name, Type" ++ "]") = parseFields "Name, Type" :=
  ⟨by decide, C9_fields_bracket_or_bare.1 "Name, Type" (by decide)⟩

/-! ## `docx_builder.py` — table detection and markdown-table parsing -/

/-- A classified chunk of a generated section body
(`find_all_table_like_chunks` output). -/
inductive Chunk where
  | table (s : String)
  | text (s : String)
deriving DecidableEq

/-- A rendered content block (the document-assembler decision for a table
chunk). -/
inductive Block where
  | tableB (cols : List String) (rows : List (List String))
  | para (s : String)
deriving DecidableEq

/-- `l.count('|') >= 1`. -/
def hasBar (s : String) : Bool := s.data.any (fun c => c = '|')

/-- Whether the next line exists and contains a delimiter
(`i + 1 < len(lines) and lines[i + 1].count('|') >= 1`). -/
def nextHasBar : List String → Bool
  | [] => false
  | r :: _ => hasBar r

/-- The scanning loop of `find_all_table_like_chunks` (`docx_builder.py`,
lines 152–171): a delimiter-bearing line whose next line also bears a
delimiter opens a table chunk absorbing the whole run; otherwise a non-blank
line is a text chunk; blank lines are dropped.  Every step consumes at least
one line, so fuel equal to the number of lines suffices. -/
def chunkLinesAux : Nat → List String → List Chunk
  | 0, _ => []
  | _ + 1, [] => []
  | fuel + 1, l :: rest =>
    if hasBar l ∧ nextHasBar rest then
      Chunk.table (pyStripStr (pyJoin "\x0a" (l :: rest.takeWhile hasBar))) ::
        chunkLinesAux fuel (rest.dropWhile hasBar)
    else if pyStripStr l ≠ "" then
      Chunk.text (pyStripStr l) :: chunkLinesAux fuel rest
    else chunkLinesAux fuel rest

/-- The chunk classification of a list of lines. -/
def chunksOfLines (ls : List String) : List Chunk := chunkLinesAux ls.length ls

/-- `find_all_table_like_chunks` (lines 145–172): empty or blank text gives
no chunks; otherwise classify the lines of the text. -/
def find_all_table_like_chunks (t : String) : List Chunk :=
  if t = "" ∨ pyStripStr t = "" then []
  else chunksOfLines ((pySplitlines t.data).map String.mk)

/-- The non-blank stripped lines of a table chunk
(`[l.strip() for l in table_md.splitlines() if l.strip()]`, line 176). -/
def mdLines (md : String) : List String :=
  ((pySplitlines md.data).map (fun l => String.mk (pyStrip l))).filter (fun l => l ≠ "")

/-- `l.strip('|')`: remove leading and trailing `'|'` characters. -/
def stripBars (cs : List Char) : List Char :=
  ((cs.dropWhile (fun c => c = '|')).reverse.dropWhile (fun c => c = '|')).reverse

/-- One row: `[c.strip() for c in l.strip('|').split('|')]` (line 183). -/
def rowOfLine (l : String) : List String :=
  (splitOnChar '|' (stripBars l.data)).map (fun c => String.mk (pyStrip c))

/-- `parse_markdown_table` (lines 175–190): needs at least two non-blank
lines, the first beginning with `'|'`, and every data row with the same
column count as the header; the Python `(None, None)` results are modelled
as `none`. -/
def parse_markdown_table (md : String) : Option (List String × List (List String)) :=
  if (mdLines md).length < 2 then none
  else
    match mdLines md with
    | [] => none
    | l0 :: _ =>
      if l0.data.head? = some '|' then
        match (mdLines md).map rowOfLine with
        | [] => none
        | header :: dataRows =>
          if dataRows.all (fun r => r.length = header.length) then some (header, dataRows)
          else none
      else none

/-- The assembler's decision for a table chunk (`build_document`,
lines 273–278): promote to a structured table when
`parse_markdown_table` succeeds (its header list is always non-empty and,
with at least two lines, its data-row list is non-empty, so the Python
truthiness test `if colnames and rows` is exactly success), otherwise render
the chunk text as a plain paragraph. -/
def renderTableChunk (v : String) : Block :=
  match parse_markdown_table v with
  | some (cols, rows) => Block.tableB cols rows
  | none => Block.para v

/-- The claim-side promotion condition: every data row has the same column
count as the header row. -/
def specEqualCounts (md : String) : Bool :=
  match (mdLines md).map rowOfLine with
  | [] => true
  | header :: dataRows => dataRows.all (fun r => r.length = header.length)

/-- The amended extra condition: the first non-blank line starts with a
delimiter. -/
def firstStartsBar (md : String) : Bool :=
  match mdLines md with
  | [] => false
  | l0 :: _ => l0.data.head? = some '|'

/-! ## Claims about table detection -/

/-- Dropping a prefix never lengthens a list. -/
lemma length_dropWhile_le {α : Type} (p : α → Bool) (l : List α) :
    (l.dropWhile p).length ≤ l.length := by
  induction l with
  | nil => simp
  | cons c cs ih =>
    by_cases h : p c
    · rw [List.dropWhile_cons_of_pos h]; exact le_trans ih (Nat.le_succ _)
    · rw [List.dropWhile_cons_of_neg h]

/-- An empty strip result means every character was whitespace. -/
lemma all_space_of_pyStrip_eq_nil (cs : List Char) (h : pyStrip cs = []) :
    ∀ x ∈ cs, isPySpace x = true := by
  have h₁ : (cs.dropWhile isPySpace).reverse.dropWhile isPySpace = [] := by
    have := congrArg List.reverse h
    simpa [pyStrip] using this
  have h₂ : ∀ x ∈ (cs.dropWhile isPySpace).reverse, isPySpace x = true :=
    List.dropWhile_eq_nil_iff.mp h₁
  have h₃ : ∀ x ∈ cs.dropWhile isPySpace, isPySpace x = true := by
    intro x hx
    exact h₂ x (List.mem_reverse.mpr hx)
  intro x hx
  have hx' : x ∈ cs.takeWhile isPySpace ++ cs.dropWhile isPySpace := by
    rw [List.takeWhile_append_dropWhile isPySpace cs]; exact hx
  rcases List.mem_append.mp hx' with h₄ | h₄
  · exact List.mem_takeWhile_imp h₄
  · exact h₃ x h₄

/-- The chunk scanner is insensitive to the exact fuel value once the fuel
covers the number of lines. -/
lemma chunkLinesAux_fuel (fuel₁ : Nat) : ∀ (fuel₂ : Nat) (ls : List String),
    ls.length ≤ fuel₁ → ls.length ≤ fuel₂ →
    chunkLinesAux fuel₁ ls = chunkLinesAux fuel₂ ls := by
  induction fuel₁ with
  | zero =>
    intro fuel₂ ls h₁ _
    have : ls = [] := List.length_eq_zero.mp (Nat.le_zero.mp h₁)
    subst this
    cases fuel₂ <;> rfl
  | succ f ih =>
    intro fuel₂ ls h₁ h₂
    cases ls with
    | nil => cases fuel₂ <;> rfl
    | cons l rest =>
      cases fuel₂ with
      | zero => simp at h₂
      | succ f₂ =>
        have hr : rest.length ≤ f := by simpa using h₁
        have hr₂ : rest.length ≤ f₂ := by simpa using h₂
        have hd : (rest.dropWhile hasBar).length ≤ rest.length :=
          length_dropWhile_le _ _
        simp only [chunkLinesAux]
        by_cases hc : (hasBar l ∧ nextHasBar rest : Prop)
        · rw [if_pos hc, if_pos hc, ih f₂ _ (le_trans hd hr) (le_trans hd hr₂)]
        · rw [if_neg hc, if_neg hc]
          by_cases hs : pyStripStr l ≠ ""
          · rw [if_pos hs, if_pos hs, ih f₂ _ hr hr₂]
          · rw [if_neg hs, if_neg hs]
            exact ih f₂ _ hr hr₂

/-- The chunk scanner at sufficient fuel equals `chunksOfLines`. -/
lemma chunkLinesAux_eq_chunksOfLines (fuel : Nat) (ls : List String)
    (h : ls.length ≤ fuel) : chunkLinesAux fuel ls = chunksOfLines ls :=
  chunkLinesAux_fuel fuel ls.length ls h (le_refl _)

/-- A delimiter run is absorbed into a single table chunk headed by its
first line. -/
lemma chunksOfLines_table_run (l r : String) (rest : List String)
    (hl : hasBar l = true) (hr : hasBar r = true) :
    chunksOfLines (l :: r :: rest) =
      Chunk.table (pyStripStr (pyJoin "\x0a" (l :: r :: rest.takeWhile hasBar))) ::
        chunksOfLines (rest.dropWhile hasBar) := by
  have hc : (hasBar l ∧ nextHasBar (r :: rest) : Prop) := by
    constructor
    · exact hl
    · simpa [nextHasBar] using hr
  have hbound : ((r :: rest).dropWhile hasBar).length ≤ rest.length + 1 := by
    rw [List.dropWhile_cons_of_pos hr]
    exact le_trans (length_dropWhile_le _ _) (Nat.le_succ_of_le (le_refl _))
  unfold chunksOfLines
  simp only [List.length_cons, chunkLinesAux, if_pos hc]
  rw [chunkLinesAux_eq_chunksOfLines _ _ hbound]
  rw [List.takeWhile_cons_of_pos hr, List.dropWhile_cons_of_pos hr]
  rfl

/-- A non-blank line that does not open a delimiter run is a text chunk. -/
lemma chunksOfLines_text_line (l : String) (rest : List String)
    (hc : ¬(hasBar l ∧ nextHasBar rest : Prop)) (hs : pyStripStr l ≠ "") :
    chunksOfLines (l :: rest) = Chunk.text (pyStripStr l) :: chunksOfLines rest := by
  unfold chunksOfLines
  simp only [List.length_cons, chunkLinesAux, if_neg hc, if_pos hs]

/-- Stripping a string that contains a delimiter never yields the empty
string (`'|'` is not whitespace). -/
lemma pyStripStr_ne_of_hasBar (l : String) (h : hasBar l = true) :
    pyStripStr l ≠ "" := by
  intro hemp
  have hdat : pyStrip l.data = [] := by
    have hd : (pyStripStr l).data = ("" : String).data := by rw [hemp]
    simpa [pyStripStr] using hd
  obtain ⟨c, hc, hcbar⟩ := List.any_eq_true.mp h
  have hceq : c = '|' := by simpa using hcbar
  subst hceq
  have := all_space_of_pyStrip_eq_nil l.data hdat '|' hc
  simp [isPySpace] at this

/-- A table chunk is promoted exactly when it has at least two non-blank
lines, the first starts with a delimiter, and all rows share the header's
column count. -/
lemma promo_iff (md : String) : (parse_markdown_table md).isSome = true ↔
    (2 ≤ (mdLines md).length ∧ firstStartsBar md = true ∧ specEqualCounts md = true) := by
  unfold parse_markdown_table firstStartsBar specEqualCounts
  cases hml : mdLines md with
  | nil => simp
  | cons l0 tl =>
    cases tl with
    | nil => simp
    | cons l1 tl' =>
      have hlen : ¬((l0 :: l1 :: tl').length < 2) := by simp
      rw [if_neg hlen]
      by_cases hbar : l0.data.head? = some '|'
      · by_cases hall : ((l1 :: tl').map rowOfLine).all
            (fun r => decide (r.length = (rowOfLine l0).length)) = true
        · simp [hbar, hall]
        · simp [hbar, hall]
      · simp [hbar]

/-- A promoted table consists of the split rows of the chunk, header
first. -/
lemma promo_rows (md : String) (h : List String) (rs : List (List String))
    (hp : parse_markdown_table md = some (h, rs)) : (mdLines md).map rowOfLine = h :: rs := by
  unfold parse_markdown_table at hp
  split at hp
  · exact absurd hp (by simp)
  · split at hp
    · exact absurd hp (by simp)
    · rename_i lines l0 tl hml
      split at hp
      · cases hrows : (mdLines md).map rowOfLine with
        | nil =>
          simp only [hrows] at hp
          exact absurd hp (by simp)
        | cons header dataRows =>
          simp only [hrows] at hp
          split at hp
          · have hinj := Option.some.inj hp
            simp only [Prod.mk.injEq] at hinj
            rw [hinj.1, hinj.2]
          · exact absurd hp (by simp)
      · exact absurd hp (by simp)


/-- C5 counterexample: the claim that a delimiter block is promoted to a
structured table "exactly when every row has the same column count as the
header" fails at `"a|b\nc|d"` — it is classified as a table chunk and all
rows have equal column counts, yet it is not promoted (the code additionally
requires the first line to start with `'|'`) and is rendered as plain
paragraph text. -/
theorem C5_counterexample :
    find_all_table_like_chunks "a|b\x0ac|d" = [Chunk.table "a|b\x0ac|d"] ∧
    2 ≤ (mdLines "a|b\x0ac|d").length ∧
    specEqualCounts "a|b\x0ac|d" = true ∧
    parse_markdown_table "a|b\x0ac|d" = none ∧
    renderTableChunk "a|b\x0ac|d" = Block.para "a|b\x0ac|d" :=
  ⟨by decide, by decide, by decide, by decide, by decide⟩

/-- C5 (amended): (1) a run of two or more consecutive delimiter-bearing
lines is one table chunk whose text is the run joined by newlines, headed by
the run's first line (the header row); (2) a delimiter-bearing line whose
successor bears no delimiter (or does not exist) is a plain text chunk;
(3) a table chunk is promoted to a structured table exactly when it has at
least two non-blank lines, its first line starts with a delimiter, and every
row has the same column count as the header; (4) the promoted columns and
rows are obtained by stripping leading/trailing delimiters from each line
and splitting on the delimiter (`rowOfLine`); (5) a non-promoted table chunk
is rendered as plain paragraph text. -/
theorem C5_table_detection :
    (∀ (l r : String) (rest : List String), hasBar l = true → hasBar r = true →
      chunksOfLines (l :: r :: rest) =
        Chunk.table (pyStripStr (pyJoin "\x0a" (l :: r :: rest.takeWhile hasBar))) ::
          chunksOfLines (rest.dropWhile hasBar)) ∧
    (∀ (l : String) (rest : List String), hasBar l = true → nextHasBar rest = false →
      chunksOfLines (l :: rest) = Chunk.text (pyStripStr l) :: chunksOfLines rest) ∧
    (∀ md : String, (parse_markdown_table md).isSome = true ↔
      (2 ≤ (mdLines md).length ∧ firstStartsBar md = true ∧ specEqualCounts md = true)) ∧
    (∀ (md : String) (h : List String) (rs : List (List String)),
      parse_markdown_table md = some (h, rs) → (mdLines md).map rowOfLine = h :: rs) ∧
    (∀ v : String, parse_markdown_table v = none → renderTableChunk v = Block.para v) := by
  refine ⟨?_, ?_, promo_iff, promo_rows, ?_⟩
  · intro l r rest hl hr
    exact chunksOfLines_table_run l r rest hl hr
  · intro l rest hl hnext
    apply chunksOfLines_text_line
    · intro hcon
      rw [hnext] at hcon
      exact absurd hcon.2 (by simp)
    · exact pyStripStr_ne_of_hasBar l hl
  · intro v hv
    unfold renderTableChunk
    rw [hv]

/-- Witness for C5 (amended): concrete instances for the hypothesis-bearing
conjuncts — a two-line delimiter run groups into one table chunk, a lone
delimiter line followed by a bar-free line is text, a well-formed markdown
table yields its split rows, and a non-promoted chunk is rendered as a
paragraph. -/
theorem C5_witness :
    chunksOfLines ["|a|b|", "|c|d|"] =
      Chunk.table (pyStripStr (pyJoin "\x0a" (["|a|b|", "|c|d|"] : List String))) ::
        chunksOfLines [] ∧
    chunksOfLines ["x|y", "p"] = Chunk.text (pyStripStr "x|y") :: chunksOfLines ["p"] ∧
    (mdLines "|a|b|\x0a|c|d|").map rowOfLine = ["a", "b"] :: [["c", "d"]] ∧
    renderTableChunk "a|b\x0ac|d" = Block.para "a|b\x0ac|d" := by
  refine ⟨?_, ?_, ?_, ?_⟩
  · have h := C5_table_detection.1 "|a|b|" "|c|d|" [] (by decide) (by decide)
    simpa using h
  · exact C5_table_detection.2.1 "x|y" ["p"] (by decide) (by decide)
  · exact C5_table_detection.2.2.2.1 "|a|b|\x0a|c|d|" ["a", "b"] [["c", "d"]] (by decide)
  · exact C5_table_detection.2.2.2.2 "a|b\x0ac|d" (by decide)


/-! ## `llm_orchestrator.py` — the generation pipeline

The LLM (`ChatOpenAI` / `llm.invoke`) is modelled as an opaque function
`gen : String → String → Except ε String` taking the system prompt and the
user prompt; an exception raised by the call is an `Except.error`, which the
`try`/`except` of lines 114–119 re-raises unchanged. -/

/-- `SYSTEM_PROMPT` (lines 14–26 of `llm_orchestrator.py`). -/
def SYSTEM_PROMPT : String :=
  "You are a senior SAP documentation specialist.\x0a" ++
  "You generate precise, client-ready text for a Unified Design Document (UDD) based on:\x0a" ++
  "1) a Functional Specification (FSD) excerpt,\x0a" ++
  "2) a UDD section definition (RAG).\x0a\x0a" ++
  "Rules:\x0a" ++
  "- Produce polished, formal, professional language fit for client deliverables.\x0a" ++
  "- Follow the section\x27s \x27type\x27 and \x27fields\x27 instructions strictly (table vs. text).\x0a" ++
  "- Do not hallucinate. If something is missing, write [To Be Filled].\x0a" ++
  "- Keep each answer self-contained to be pasted directly into the UDD.\x0a" ++
  "- Use concise, well-structured prose. Avoid filler.\x0a" ++
  "- **Do NOT repeat or rewrite the section title in the output. Only generate the body content.**"

/-- The Python `repr` of a list of (quote-free) strings, as interpolated by
the f-string of line 35. -/
def pyReprStrList (fs : List String) : String :=
  "[" ++ pyJoin ", " (fs.map (fun s => "\x27" ++ s ++ "\x27")) ++ "]"

/-- `fields_hint` (line 35): present only when `section.fields` is truthy,
i.e. neither `None` nor the empty list. -/
def fieldsHint (sec : RagSection) : String :=
  match sec.fields with
  | none => ""
  | some [] => ""
  | some fs => "\x0aFields (if table): " ++ pyReprStrList fs

/-- `build_user_prompt` (lines 34–48). -/
def build_user_prompt (sec : RagSection) (fs_slice : String) : String :=
  "Target UDD Section: " ++ sec.name ++ "\x0a" ++
  "Type: " ++ sec.type ++ "\x0a" ++
  "Description: " ++ sec.description ++ fieldsHint sec ++ "\x0a\x0a" ++
  "Authoring Instructions:\x0a" ++ sec.prompt ++ "\x0a\x0a" ++
  "Functional Spec Excerpt (FSD):\x0a" ++
  "\x22\x22\x22" ++ fs_slice ++ "\x22\x22\x22\x0a\x0a" ++
  "Now produce only the content for the UDD section above. " ++
  "If type is \x27table\x27, return a clean markdown table with exactly the columns requested. " ++
  "If a field\x27s value is unknown, use [To Be Filled]."

/-- Python `l[-n:]`. -/
def takeLast {α : Type} (n : Nat) (l : List α) : List α := l.drop (l.length - n)

/-- Python `s[:n]`. -/
def pyTake (n : Nat) (s : String) : String := String.mk (s.data.take n)

/-- The user prompt for one section given the rolling context
(lines 88–99): the up-to-three most recent context snippets joined by blank
lines, prefixed when non-empty, then the built section prompt over the
resolved FSD slice. -/
def stepPrompt (fsd : String) (mapper : List (String × List String))
    (sec : RagSection) (ctx : List String) : String :=
  let prior := pyJoin "\x0a\x0a" (takeLast 3 ctx)
  (if prior = "" then "" else "Context (previous sections):\x0a" ++ prior ++ "\x0a\x0a") ++
    build_user_prompt sec (extract_relevant_fsd_slice fsd sec.name mapper)

/-- The generation loop of `generate_udd_sections` (lines 83–131): for each
section in order, invoke the generator on the system prompt and the step
prompt; a failure propagates immediately; a success appends
`(name, content.strip())` to the results and
`"[name] " + content[:1200]` to the context snippets. -/
def generateAux {ε : Type} (gen : String → String → Except ε String) (fsd : String)
    (mapper : List (String × List String)) :
    List RagSection → List (String × String) → List String →
    Except ε (List (String × String))
  | [], results, _ => Except.ok results
  | sec :: rest, results, ctx =>
    match gen SYSTEM_PROMPT (stepPrompt fsd mapper sec ctx) with
    | Except.error e => Except.error e
    | Except.ok raw =>
      generateAux gen fsd mapper rest (results ++ [(sec.name, pyStripStr raw)])
        (ctx ++ ["[" ++ sec.name ++ "] " ++ pyTake 1200 (pyStripStr raw)])

/-- `generate_udd_sections` (lines 68–133): run the loop from empty results
and empty context (`ensure_order` is the identity, line 51–52). -/
def generate_udd_sections {ε : Type} (gen : String → String → Except ε String)
    (fsd : String) (rags : List RagSection) (mapper : List (String × List String)) :
    Except ε (List (String × String)) :=
  generateAux gen fsd mapper rags [] []

/-- C6: if the generator fails on a template, `generate_udd_sections`
propagates that failure immediately and aborts — the result is the error
itself, carrying no generated sections, regardless of the remaining
templates; and likewise from any intermediate state of the loop, so the
sections already processed are discarded rather than returned as a partial
result. -/
theorem C6_fail_fast {ε : Type} (gen : String → String → Except ε String)
    (fsd : String) (mapper : List (String × List String)) (sec : RagSection)
    (rest : List RagSection) (e : ε) :
    (gen SYSTEM_PROMPT (stepPrompt fsd mapper sec []) = Except.error e →
      generate_udd_sections gen fsd (sec :: rest) mapper = Except.error e) ∧
    (∀ (results : List (String × String)) (ctx : List String),
      gen SYSTEM_PROMPT (stepPrompt fsd mapper sec ctx) = Except.error e →
      generateAux gen fsd mapper (sec :: rest) results ctx = Except.error e) := by
  constructor
  · intro h
    unfold generate_udd_sections generateAux
    rw [h]
  · intro results ctx h
    unfold generateAux
    rw [h]

/-- Witness for C6: a generator that always fails makes the whole pipeline
return its error with no partial output, even with several templates
queued. -/
theorem C6_witness :
    ((fun (_ _ : String) => (Except.error "generation failure" : Except String String))
        SYSTEM_PROMPT
        (stepPrompt "F" [] ⟨"A", "text", "", "", none⟩ []) =
      Except.error "generation failure") ∧
    generate_udd_sections
        (fun (_ _ : String) => (Except.error "generation failure" : Except String String))
        "F" [⟨"A", "text", "", "", none⟩, ⟨"B", "text", "", "", none⟩] [] =
      Except.error "generation failure" :=
  ⟨rfl, (C6_fail_fast (fun _ _ => Except.error "generation failure") "F" []
    ⟨"A", "text", "", "", none⟩ [⟨"B", "text", "", "", none⟩] "generation failure").1 rfl⟩


/-! ## Lemmas towards the single-section round trip (C4) -/

/-- `dropWhile` is the identity when no element satisfies the predicate. -/
lemma dropWhile_eq_self_of_all {α : Type} (p : α → Bool) (cs : List α)
    (h : ∀ c ∈ cs, p c = false) : cs.dropWhile p = cs := by
  cases cs with
  | nil => rfl
  | cons c rest => exact List.dropWhile_cons_of_neg (by simp [h c (by simp)])

/-- Stripping is the identity on whitespace-free text. -/
lemma pyStrip_eq_self_of_no_ws (cs : List Char)
    (h : ∀ c ∈ cs, isPySpace c = false) : pyStrip cs = cs := by
  unfold pyStrip
  rw [dropWhile_eq_self_of_all _ _ h]
  rw [dropWhile_eq_self_of_all _ _ (fun c hc => h c (List.mem_reverse.mp hc))]
  exact List.reverse_reverse cs

/-- Stripping absorbs a leading whitespace character. -/
lemma pyStrip_cons_ws (c : Char) (cs : List Char) (h : isPySpace c = true) :
    pyStrip (c :: cs) = pyStrip cs := by
  unfold pyStrip
  rw [List.dropWhile_cons_of_pos h]

/-- Stripping absorbs any run of leading newlines. -/
lemma pyStrip_dropWhile_nl (cs : List Char) :
    pyStrip (cs.dropWhile (fun x => x = '\n')) = pyStrip cs := by
  induction cs with
  | nil => rfl
  | cons c rest ih =>
    by_cases hc : c = '\n'
    · rw [List.dropWhile_cons_of_pos (by simp [hc]), ih,
        pyStrip_cons_ws c rest (by simp [hc, isPySpace])]
    · rw [List.dropWhile_cons_of_neg (by simp [hc])]

/-- Every `dropWhile` is a `drop`. -/
lemma exists_dropWhile_eq_drop {α : Type} (p : α → Bool) (cs : List α) :
    ∃ k, cs.dropWhile p = cs.drop k := by
  induction cs with
  | nil => exact ⟨0, rfl⟩
  | cons c rest ih =>
    by_cases hc : p c
    · obtain ⟨k, hk⟩ := ih
      exact ⟨k + 1, by rw [List.dropWhile_cons_of_pos hc]; exact hk⟩
    · refine ⟨0, ?_⟩
      rw [List.dropWhile_cons_of_neg (by simp [hc])]
      rfl

/-- A case-sensitive prefix match is also a case-insensitive match. -/
lemma stripPrefixCS_imp_CI (p : List Char) : ∀ (cs r : List Char),
    stripPrefixCS p cs = some r → stripPrefixCI p cs = some r := by
  induction p with
  | nil => intro cs r h; exact h
  | cons a ps ih =>
    intro cs r h
    cases cs with
    | nil => exact absurd h (by simp [stripPrefixCS])
    | cons c rest =>
      unfold stripPrefixCS at h
      by_cases hac : a = c
      · rw [if_pos hac] at h
        unfold stripPrefixCI
        rw [if_pos (by rw [hac])]
        exact ih rest r h
      · rw [if_neg hac] at h
        exact absurd h (by simp)

/-- A case-sensitive marker start begins with `'S'`. -/
lemma isSectionStartCS_head (cs : List Char) (h : isSectionStartCS cs = true) :
    cs.head? = some 'S' := by
  unfold isSectionStartCS at h
  cases cs with
  | nil => simp [stripPrefixCS] at h
  | cons c rest =>
    have hdat : "SECTION".data = 'S' :: "ECTION".data := rfl
    rw [hdat] at h
    unfold stripPrefixCS at h
    by_cases hsc : 'S' = c
    · rw [← hsc]
      rfl
    · rw [if_neg hsc] at h
      simp at h

/-- A case-sensitive marker start is also seen by the case-insensitive
matcher. -/
lemma isSectionStartCS_imp_afterMarkerCI (cs : List Char)
    (h : isSectionStartCS cs = true) : (afterMarkerCI cs).isSome = true := by
  unfold isSectionStartCS at h
  unfold afterMarkerCI
  cases hstrip : stripPrefixCS "SECTION".data cs with
  | none => simp [hstrip] at h
  | some cs1 =>
    simp only [hstrip] at h
    rw [stripPrefixCS_imp_CI _ _ _ hstrip]
    simp only
    cases hdw : dropWs cs1 with
    | nil => simp [hdw] at h
    | cons c cs2 =>
      simp only [hdw] at h
      rw [decide_eq_true_eq] at h
      show (if c = ':' ∨ c = '-' then readNumber (dropWs cs2) else none).isSome = true
      rw [if_pos (of_decide_eq_true h.1)]
      exact h.2


/-- The newline-forcing substitution is the identity on text in which the
case-sensitive marker pattern starts at no position. -/
lemma forceNLAux_id (fuel : Nat) : ∀ cs : List Char,
    (∀ n, isSectionStartCS (cs.drop n) = false) → forceNLAux fuel cs = cs := by
  induction fuel with
  | zero => intro cs _; rfl
  | succ f ih =>
    intro cs h
    cases cs with
    | nil => rfl
    | cons c rest =>
      simp only [forceNLAux]
      rw [h (wsRun (c :: rest))]
      simp only [Bool.false_eq_true, if_false]
      rw [ih rest (fun n => h (n + 1))]

/-- Positions at which the case-sensitive marker starts inside `xs ++ ys`
lie inside `ys` when no character of `xs` is `'S'`. -/
lemma noMarkerCS_append (xs ys : List Char)
    (hxs : ∀ c ∈ xs, c ≠ 'S')
    (hys : ∀ m, isSectionStartCS (ys.drop m) = false) :
    ∀ n, isSectionStartCS ((xs ++ ys).drop n) = false := by
  intro n
  by_cases hn : n < xs.length
  · rw [List.drop_append_of_le_length (le_of_lt hn)]
    by_contra hcon
    rw [Bool.not_eq_false] at hcon
    have hxsne : xs.drop n ≠ [] := by
      intro hnil
      have hle := List.drop_eq_nil_iff.mp hnil
      omega
    obtain ⟨x, xrest, hx⟩ := List.exists_cons_of_ne_nil hxsne
    rw [hx, List.cons_append] at hcon
    have hhead := isSectionStartCS_head _ hcon
    have hxS : x = 'S' := by simpa using hhead
    have hmem : x ∈ xs :=
      List.mem_of_mem_drop (by rw [hx]; exact List.mem_cons_self x xrest)
    exact hxs x hmem hxS
  · have hsplit : (xs ++ ys).drop n = ys.drop (n - xs.length) := by
      have hn' : n = xs.length + (n - xs.length) := by omega
      rw [hn', List.drop_append]
      congr 1
      omega
    rw [hsplit]
    exact hys _


/-- Whether the text contains two adjacent newline characters (the pattern
`\n{2,}` matches somewhere). -/
def hasAdjNL : List Char → Bool
  | [] => false
  | [_] => false
  | a :: b :: rest => (decide (a = '\n') && decide (b = '\n')) || hasAdjNL (b :: rest)

/-- `hasAdjNL` is closed under taking the tail. -/
lemma hasAdjNL_tail (c : Char) (cs : List Char)
    (h : hasAdjNL (c :: cs) = false) : hasAdjNL cs = false := by
  cases cs with
  | nil => rfl
  | cons b rest =>
    unfold hasAdjNL at h
    simp only [Bool.or_eq_false_iff] at h
    exact h.2

/-- Without adjacent newlines, the character after a newline is not a
newline. -/
lemma no_nl_after_nl (cs : List Char) (h : hasAdjNL ('\n' :: cs) = false) :
    cs.dropWhile (fun x => x = '\n') = cs := by
  cases cs with
  | nil => rfl
  | cons b rest =>
    unfold hasAdjNL at h
    simp only [Bool.or_eq_false_iff] at h
    have hb : ¬(b = '\n') := by
      intro hb
      rw [hb] at h
      simp at h
    exact List.dropWhile_cons_of_neg (by simp [hb])

/-- The blank-line collapsing substitution is the identity on text without
adjacent newlines (a lone newline maps to itself). -/
lemma collapseAux_id (fuel : Nat) : ∀ cs : List Char,
    hasAdjNL cs = false → collapseAux fuel cs = cs := by
  induction fuel with
  | zero => intro cs _; rfl
  | succ f ih =>
    intro cs h
    cases cs with
    | nil => rfl
    | cons c rest =>
      simp only [collapseAux]
      by_cases hc : c = '\n'
      · rw [if_pos (by simp [hc])]
        rw [hc] at h
        rw [no_nl_after_nl rest h, ih rest (hasAdjNL_tail _ _ h), hc]
      · rw [if_neg (by simp [hc])]
        rw [ih rest (hasAdjNL_tail _ _ h)]

/-- The collapsing scan copies a newline-free prefix. -/
lemma collapseAux_copy (xs : List Char) (hxs : ∀ c ∈ xs, c ≠ '\n') :
    ∀ (fuel : Nat) (β : List Char), xs.length ≤ fuel →
    collapseAux fuel (xs ++ β) = xs ++ collapseAux (fuel - xs.length) β := by
  induction xs with
  | nil => intro fuel β _; simp
  | cons x xs' ih =>
    intro fuel β hlen
    cases fuel with
    | zero => simp at hlen
    | succ f =>
      have hx : x ≠ '\n' := hxs x (by simp)
      simp only [List.cons_append, collapseAux]
      rw [if_neg (by simp [hx])]
      rw [ih (fun c hc => hxs c (by simp [hc])) f β (by simpa using hlen)]
      simp only [List.length_cons, Nat.succ_sub_succ]

/-- `hasAdjNL` is closed under dropping leading newlines. -/
lemma hasAdjNL_dropWhile_nl (cs : List Char) (h : hasAdjNL cs = false) :
    hasAdjNL (cs.dropWhile (fun x => x = '\n')) = false := by
  cases cs with
  | nil => rfl
  | cons c rest =>
    by_cases hc : c = '\n'
    · rw [List.dropWhile_cons_of_pos (by simp [hc])]
      rw [hc] at h
      rw [no_nl_after_nl rest h]
      exact hasAdjNL_tail _ _ h
    · rw [List.dropWhile_cons_of_neg (by simp [hc])]
      exact h


/-- `takeWhile` over a digit prefix followed by a non-digit boundary. -/
lemma takeWhile_digits_append (xs : List Char) (hxs : ∀ c ∈ xs, isDigitC c = true) :
    ∀ ys : List Char, (∀ d, ys.head? = some d → isDigitC d = false) →
    (xs ++ ys).takeWhile isDigitC = xs ∧ (xs ++ ys).dropWhile isDigitC = ys := by
  induction xs with
  | nil =>
    intro ys hys
    cases ys with
    | nil => exact ⟨rfl, rfl⟩
    | cons d rest =>
      have hd := hys d rfl
      exact ⟨List.takeWhile_cons_of_neg (by simp [hd]),
        List.dropWhile_cons_of_neg (by simp [hd])⟩
  | cons x xs' ih =>
    intro ys hys
    have hx : isDigitC x = true := hxs x (by simp)
    have hrec := ih (fun c hc => hxs c (by simp [hc])) ys hys
    constructor
    · rw [List.cons_append, List.takeWhile_cons_of_pos hx, hrec.1]
    · rw [List.cons_append, List.dropWhile_cons_of_pos hx, hrec.2]

/-- The characters of the dotted tail `("." ++ group)*` of an identifier. -/
def dotJoin : List String → List Char
  | [] => []
  | p :: ps => '.' :: p.data ++ dotJoin ps

/-- `dottedIdent` joins its groups with dots. -/
def dottedIdent : List String → String
  | [] => ""
  | [p] => p
  | p :: ps => p ++ "." ++ dottedIdent ps

/-- The characters of a dotted identifier: first group, then the dotted
tail. -/
lemma dottedIdent_data (p : String) : ∀ ps : List String,
    (dottedIdent (p :: ps)).data = p.data ++ dotJoin ps := by
  intro ps
  induction ps generalizing p with
  | nil => simp [dottedIdent, dotJoin]
  | cons q ps' ih =>
    show (p ++ "." ++ dottedIdent (q :: ps')).data = p.data ++ ('.' :: q.data ++ dotJoin ps')
    rw [String.data_append, String.data_append, ih q]
    simp

/-- The dotted tail has at least one character per group. -/
lemma dotJoin_length_ge : ∀ ps : List String, ps.length ≤ (dotJoin ps).length := by
  intro ps
  induction ps with
  | nil => simp [dotJoin]
  | cons p ps' ih =>
    simp only [dotJoin, List.length_cons, List.length_append]
    omega

/-- The greedy dot-group scan consumes exactly the dotted tail when the
remainder starts with neither a dot nor a digit. -/
lemma readDotGroupsAux_dotJoin (ps : List String)
    (hps : ∀ p ∈ ps, p.data ≠ [] ∧ ∀ c ∈ p.data, isDigitC c = true)
    (r : List Char)
    (hr : ∀ d, r.head? = some d → (isDigitC d = false ∧ d ≠ '.')) :
    ∀ fuel : Nat, ps.length ≤ fuel →
    readDotGroupsAux fuel (dotJoin ps ++ r) = (dotJoin ps, r) := by
  induction ps with
  | nil =>
    intro fuel _
    show readDotGroupsAux fuel r = ([], r)
    cases fuel with
    | zero => rfl
    | succ f =>
      cases r with
      | nil => rfl
      | cons d rest =>
        have hd := hr d rfl
        simp only [readDotGroupsAux]
        rw [if_neg hd.2]
  | cons p ps' ih =>
    intro fuel hlen
    cases fuel with
    | zero => simp at hlen
    | succ f =>
      have hp := hps p (by simp)
      have hboundary : ∀ d, (dotJoin ps' ++ r).head? = some d → isDigitC d = false := by
        intro d hd
        cases ps' with
        | nil =>
          simp only [dotJoin, List.nil_append] at hd
          exact (hr d hd).1
        | cons q ps'' =>
          simp only [dotJoin] at hd
          simp only [List.cons_append, List.head?_cons] at hd
          have : d = '.' := (Option.some.inj hd).symm
          rw [this]
          decide
      have hspan := takeWhile_digits_append p.data hp.2 (dotJoin ps' ++ r) hboundary
      have hshape : dotJoin (p :: ps') ++ r = '.' :: (p.data ++ (dotJoin ps' ++ r)) := by
        simp [dotJoin]
      rw [hshape]
      simp only [readDotGroupsAux, if_true, hspan.1, hspan.2]
      rw [if_neg (by simpa [List.isEmpty_iff] using hp.1)]
      rw [ih (fun q hq => hps q (by simp [hq])) f (by simpa using hlen)]
      simp [dotJoin]


/-- The head of the dotted tail followed by `r` is not a digit. -/
lemma dotJoin_head_not_digit (ps : List String) (r : List Char)
    (hr : ∀ d, r.head? = some d → isDigitC d = false) :
    ∀ d, (dotJoin ps ++ r).head? = some d → isDigitC d = false := by
  intro d hd
  cases ps with
  | nil =>
    simp only [dotJoin, List.nil_append] at hd
    exact hr d hd
  | cons q ps'' =>
    simp only [dotJoin, List.cons_append, List.head?_cons] at hd
    have hdd : d = '.' := (Option.some.inj hd).symm
    rw [hdd]
    decide

/-- The greedy identifier scan consumes exactly a dotted identifier when the
remainder starts with neither a dot nor a digit. -/
lemma readNumber_dotted (p : String) (ps : List String)
    (hp : p.data ≠ [] ∧ ∀ c ∈ p.data, isDigitC c = true)
    (hps : ∀ q ∈ ps, q.data ≠ [] ∧ ∀ c ∈ q.data, isDigitC c = true)
    (r : List Char)
    (hr : ∀ d, r.head? = some d → (isDigitC d = false ∧ d ≠ '.')) :
    readNumber ((dottedIdent (p :: ps)).data ++ r) =
      some ((dottedIdent (p :: ps)).data, r) := by
  rw [dottedIdent_data]
  have hboundary := dotJoin_head_not_digit ps r (fun d hd => (hr d hd).1)
  have hspan := takeWhile_digits_append p.data hp.2 (dotJoin ps ++ r) hboundary
  have hassoc : (p.data ++ dotJoin ps) ++ r = p.data ++ (dotJoin ps ++ r) := by simp
  rw [hassoc]
  unfold readNumber
  simp only [hspan.1, hspan.2]
  rw [if_neg (by simpa [List.isEmpty_iff] using hp.1)]
  rw [readDotGroupsAux_dotJoin ps hps r hr ((dotJoin ps ++ r).length + 1)
    (by have := dotJoin_length_ge ps; simp [List.length_append]; omega)]


/-- A digit-or-dot character is not a carriage return, newline, `'S'`, or
whitespace. -/
lemma digit_or_dot_props (c : Char) (h : isDigitC c = true ∨ c = '.') :
    c ≠ '\x0d' ∧ c ≠ '\n' ∧ c ≠ 'S' ∧ isPySpace c = false := by
  rcases h with h | h
  · refine ⟨?_, ?_, ?_, ?_⟩
    · intro he; rw [he] at h; exact absurd h (by decide)
    · intro he; rw [he] at h; exact absurd h (by decide)
    · intro he; rw [he] at h; exact absurd h (by decide)
    · unfold isDigitC at h
      rw [decide_eq_true_eq] at h
      unfold isPySpace
      rw [decide_eq_false_iff_not]
      intro hws
      rcases hws with h1 | h1 | h1 | h1 | h1 | h1 <;> (rw [h1] at h; revert h; decide)
  · rw [h]
    refine ⟨by decide, by decide, by decide, by decide⟩

/-- The characters of the dotted tail are digits or dots. -/
lemma dotJoin_chars (ps : List String)
    (hps : ∀ q ∈ ps, ∀ c ∈ q.data, isDigitC c = true) :
    ∀ c ∈ dotJoin ps, isDigitC c = true ∨ c = '.' := by
  induction ps with
  | nil => intro c hc; simp [dotJoin] at hc
  | cons q ps' ih =>
    intro c hc
    simp only [dotJoin, List.cons_append, List.mem_cons, List.mem_append] at hc
    rcases hc with hc | hc | hc
    · exact Or.inr hc
    · exact Or.inl (hps q (by simp) c hc)
    · exact ih (fun q' hq' => hps q' (by simp [hq'])) c hc

/-- The characters of a dotted identifier are digits or dots. -/
lemma dottedIdent_chars (p : String) (ps : List String)
    (hp : ∀ c ∈ p.data, isDigitC c = true)
    (hps : ∀ q ∈ ps, ∀ c ∈ q.data, isDigitC c = true) :
    ∀ c ∈ (dottedIdent (p :: ps)).data, isDigitC c = true ∨ c = '.' := by
  rw [dottedIdent_data]
  intro c hc
  rcases List.mem_append.mp hc with h | h
  · exact Or.inl (hp c h)
  · exact dotJoin_chars ps hps c h

/-- Removing an exact prefix, case-sensitively. -/
lemma stripPrefixCS_append (p : List Char) : ∀ rest : List Char,
    stripPrefixCS p (p ++ rest) = some rest := by
  induction p with
  | nil => intro rest; rfl
  | cons a ps ih =>
    intro rest
    show stripPrefixCS (a :: ps) (a :: (ps ++ rest)) = some rest
    unfold stripPrefixCS
    rw [if_pos rfl]
    exact ih rest

/-- Removing an exact prefix, case-insensitively. -/
lemma stripPrefixCI_append (p : List Char) : ∀ rest : List Char,
    stripPrefixCI p (p ++ rest) = some rest := by
  induction p with
  | nil => intro rest; rfl
  | cons a ps ih =>
    intro rest
    show stripPrefixCI (a :: ps) (a :: (ps ++ rest)) = some rest
    unfold stripPrefixCI
    rw [if_pos rfl]
    exact ih rest

/-- The finder returns nothing over text in which the anchored header
pattern matches at no position. -/
lemma findMarkersAux_none (fuel : Nat) : ∀ (cs : List Char) (pos : Nat) (b : Bool),
    (∀ n, matchHeader (cs.drop n) = none) → findMarkersAux fuel cs pos b = [] := by
  induction fuel with
  | zero => intro cs pos b _; rfl
  | succ f ih =>
    intro cs pos b h
    cases cs with
    | nil => cases b <;> rfl
    | cons c rest =>
      simp only [findMarkersAux]
      have hrest : ∀ n, matchHeader (rest.drop n) = none := fun n => h (n + 1)
      cases b with
      | false => exact ih rest (pos + 1) _ hrest
      | true =>
        have h0 : matchHeader (c :: rest) = none := h 0
        rw [if_pos rfl, h0]
        exact ih rest (pos + 1) _ hrest

/-- Rebuilding a string from its characters. -/
lemma String.mk_data_eq (s : String) : String.mk s.data = s := by
  cases s
  rfl


/-- Establishing a case-sensitive marker start from its pieces. -/
lemma isSectionStartCS_intro (rest : List Char) (c : Char) (cs2 : List Char)
    (hdw : dropWs rest = c :: cs2) (hc : c = ':' ∨ c = '-')
    (hnum : (readNumber (dropWs cs2)).isSome = true) :
    isSectionStartCS ("SECTION".data ++ rest) = true := by
  unfold isSectionStartCS
  rw [stripPrefixCS_append]
  simp only [hdw]
  simp [hc, hnum]

/-- Evaluating the case-insensitive matcher from its pieces. -/
lemma afterMarkerCI_intro (rest : List Char) (c : Char) (cs2 : List Char)
    (hdw : dropWs rest = c :: cs2) (hc : c = ':' ∨ c = '-') :
    afterMarkerCI ("SECTION".data ++ rest) = readNumber (dropWs cs2) := by
  unfold afterMarkerCI
  rw [stripPrefixCI_append]
  simp only [hdw]
  rw [if_pos hc]


/-- One step of the finder when the remaining scan is empty. -/
lemma findMarkersAux_nl_none (fuel : Nat) (cs : List Char) (pos : Nat)
    (h : ∀ n, matchHeader (cs.drop n) = none) :
    findMarkersAux fuel ('\n' :: cs) pos false = [] := by
  cases fuel with
  | zero => rfl
  | succ f =>
    simp only [findMarkersAux]
    rw [if_neg (by simp)]
    exact findMarkersAux_none f cs (pos + 1) _ h

/-- After the identifier of a single section, no further header matches in
the body (in any whitespace-skipped suffix). -/
lemma body_suffix_no_marker (body : List Char)
    (hmarker : ∀ n, afterMarkerCI (body.drop n) = none) :
    ∀ n, matchHeader ((body.dropWhile (fun x => x = '\n')).drop n) = none := by
  intro n
  obtain ⟨k, hk⟩ := exists_dropWhile_eq_drop (fun x => x = '\n') body
  rw [hk, List.drop_drop]
  unfold matchHeader dropWs
  obtain ⟨j, hj⟩ := exists_dropWhile_eq_drop isPySpace (body.drop (k + n))
  rw [hj, List.drop_drop]
  exact hmarker _

/-- The newline-forcing substitution on a marker headed by `'S'` with a
marker-free tail inserts exactly one newline. -/
lemma forceNL_marker_head (tail : List Char)
    (hCS : isSectionStartCS ('S' :: tail) = true)
    (hnoMk : ∀ n, isSectionStartCS (tail.drop n) = false) :
    forceNL ('S' :: tail) = '\n' :: 'S' :: tail := by
  unfold forceNL
  simp only [List.length_cons, forceNLAux]
  have hws : wsRun ('S' :: tail) = 0 := by
    unfold wsRun
    rw [List.takeWhile_cons_of_neg (by decide)]
    rfl
  rw [hws]
  simp only [List.drop_zero]
  rw [hCS]
  simp only [if_true, if_pos rfl]
  rw [forceNLAux_id _ _ hnoMk]

/-- Collapsing the normalized single-section text only drops the body's
leading newlines. -/
lemma collapseNL_single (xs β : List Char) (hne : xs ≠ [])
    (hxs : ∀ c ∈ xs, c ≠ '\n') (hadj : hasAdjNL β = false) :
    collapseNL ('\n' :: (xs ++ '\n' :: β)) =
      '\n' :: (xs ++ '\n' :: β.dropWhile (fun x => x = '\n')) := by
  unfold collapseNL
  simp only [List.length_cons, collapseAux]
  rw [if_true]
  obtain ⟨x, xs', hx⟩ := List.exists_cons_of_ne_nil hne
  have hxnl : x ≠ '\n' := hxs x (by rw [hx]; simp)
  have hdw : (xs ++ '\n' :: β).dropWhile (fun x => x = '\n') = xs ++ '\n' :: β := by
    rw [hx, List.cons_append]
    exact List.dropWhile_cons_of_neg (by simp [hxnl])
  rw [hdw]
  have hlen : xs.length ≤ (xs ++ '\n' :: β).length := by simp [List.length_append]
  rw [collapseAux_copy xs hxs _ _ hlen]
  have harith : (xs ++ '\n' :: β).length - xs.length = β.length + 1 := by
    simp [List.length_append]
  rw [harith]
  simp only [collapseAux]
  rw [if_true]
  rw [collapseAux_id _ _ (hasAdjNL_dropWhile_nl β hadj)]

/-- The finder over the normalized single-section text: exactly one match,
ending just before the newline that precedes the body. -/
lemma findMarkers_single (rest₁ β' idc : List Char)
    (hmatch : matchHeader ('\n' :: rest₁) = some (idc, '\n' :: β'))
    (hβ : ∀ n, matchHeader (β'.drop n) = none) :
    findMarkers ('\n' :: rest₁) =
      [(idc, 0, rest₁.length - β'.length)] := by
  unfold findMarkers
  simp only [List.length_cons, findMarkersAux]
  rw [if_true, hmatch]
  simp only
  rw [findMarkersAux_nl_none _ _ _ hβ]
  simp


/-- Normalizing a single well-formed section: one newline is inserted before
the marker and the body keeps everything but its leading newlines. -/
lemma normalize_single (p : String) (ps : List String) (body : String)
    (hp : p.data ≠ [] ∧ ∀ c ∈ p.data, isDigitC c = true)
    (hps : ∀ q ∈ ps, q.data ≠ [] ∧ ∀ c ∈ q.data, isDigitC c = true)
    (hcr : ∀ c ∈ body.data, c ≠ '\x0d')
    (hadj : hasAdjNL body.data = false)
    (hmarker : ∀ n, afterMarkerCI (body.data.drop n) = none) :
    normalizeFSD ("SECTION: " ++ dottedIdent (p :: ps) ++ "\x0a" ++ body) =
      '\n' :: (("SECTION: ".data ++ (dottedIdent (p :: ps)).data) ++
        '\n' :: body.data.dropWhile (fun x => x = '\n')) := by
  have hidc_chars : ∀ c ∈ (dottedIdent (p :: ps)).data, isDigitC c = true ∨ c = '.' :=
    dottedIdent_chars p ps hp.2 (fun q hq => (hps q hq).2)
  obtain ⟨d, ds, hpd⟩ := List.exists_cons_of_ne_nil hp.1
  have hd_digit : isDigitC d = true := hp.2 d (by rw [hpd]; simp)
  have hidc_shape : (dottedIdent (p :: ps)).data = d :: (ds ++ dotJoin ps) := by
    rw [dottedIdent_data, hpd]
    rfl
  -- the text's characters
  have hT : ("SECTION: " ++ dottedIdent (p :: ps) ++ "\x0a" ++ body).data =
      "SECTION: ".data ++ ((dottedIdent (p :: ps)).data ++ '\n' :: body.data) := by
    simp [String.data_append]
  -- carriage-return removal is the identity
  have hRC : removeCR ("SECTION: ".data ++ ((dottedIdent (p :: ps)).data ++ '\n' :: body.data)) =
      "SECTION: ".data ++ ((dottedIdent (p :: ps)).data ++ '\n' :: body.data) := by
    unfold removeCR
    rw [List.filter_eq_self]
    intro a ha
    rw [decide_eq_true_eq]
    intro heq
    subst heq
    rcases List.mem_append.mp ha with h1 | h1
    · exact absurd h1 (by decide)
    · rcases List.mem_append.mp h1 with h2 | h2
      · exact (digit_or_dot_props _ (hidc_chars _ h2)).1 rfl
      · rcases List.mem_cons.mp h2 with h3 | h3
        · exact absurd h3 (by decide)
        · exact hcr _ h3 rfl
  -- the case-sensitive marker holds at the head
  have hr_nl : ∀ e : Char, ('\n' :: body.data).head? = some e →
      (isDigitC e = false ∧ e ≠ '.') := by
    intro e he
    have he' : e = '\n' := (Option.some.inj he).symm
    rw [he']
    exact ⟨by decide, by decide⟩
  have hnum : readNumber ((dottedIdent (p :: ps)).data ++ '\n' :: body.data) =
      some ((dottedIdent (p :: ps)).data, '\n' :: body.data) :=
    readNumber_dotted p ps hp hps ('\n' :: body.data) hr_nl
  have hX_nows : List.dropWhile isPySpace ((dottedIdent (p :: ps)).data ++ '\n' :: body.data) =
      (dottedIdent (p :: ps)).data ++ '\n' :: body.data := by
    rw [hidc_shape, List.cons_append]
    exact List.dropWhile_cons_of_neg
      (by simp [(digit_or_dot_props d (Or.inl hd_digit)).2.2.2])
  have hsplit : "SECTION: ".data ++ ((dottedIdent (p :: ps)).data ++ '\n' :: body.data) =
      "SECTION".data ++ (':' :: ' ' :: ((dottedIdent (p :: ps)).data ++ '\n' :: body.data)) := by
    have h9 : "SECTION: ".data = "SECTION".data ++ [':', ' '] := by decide
    rw [h9]
    simp
  have hCS : isSectionStartCS
      ("SECTION: ".data ++ ((dottedIdent (p :: ps)).data ++ '\n' :: body.data)) = true := by
    rw [hsplit]
    apply isSectionStartCS_intro _ ':'
      (' ' :: ((dottedIdent (p :: ps)).data ++ '\n' :: body.data))
    · unfold dropWs
      exact List.dropWhile_cons_of_neg (by decide)
    · exact Or.inl rfl
    · unfold dropWs
      rw [List.dropWhile_cons_of_pos (by decide), hX_nows, hnum]
      rfl
  -- the tail of the text contains no further case-sensitive marker
  have htail_noMk : ∀ n, isSectionStartCS
      ((("ECTION: ".data ++ ((dottedIdent (p :: ps)).data ++ ['\n'])) ++ body.data).drop n) =
        false := by
    apply noMarkerCS_append
    · intro c hc
      rcases List.mem_append.mp hc with h1 | h1
      · intro heq
        subst heq
        exact absurd h1 (by decide)
      · rcases List.mem_append.mp h1 with h2 | h2
        · exact (digit_or_dot_props c (hidc_chars c h2)).2.2.1
        · rcases List.mem_cons.mp h2 with h3 | h3
          · rw [h3]; decide
          · exact absurd h3 (List.not_mem_nil c)
    · intro m
      by_contra hcon
      rw [Bool.not_eq_false] at hcon
      have hsome := isSectionStartCS_imp_afterMarkerCI _ hcon
      rw [hmarker m] at hsome
      exact absurd hsome (by simp)
  have htail_noMk' : ∀ n, isSectionStartCS
      (("ECTION: ".data ++ ((dottedIdent (p :: ps)).data ++ '\n' :: body.data)).drop n) =
        false := by
    intro n
    have hshape2 : "ECTION: ".data ++ ((dottedIdent (p :: ps)).data ++ '\n' :: body.data) =
        ("ECTION: ".data ++ ((dottedIdent (p :: ps)).data ++ ['\n'])) ++ body.data := by
      simp
    rw [hshape2]
    exact htail_noMk n
  have hconsS : "SECTION: ".data ++ ((dottedIdent (p :: ps)).data ++ '\n' :: body.data) =
      'S' :: ("ECTION: ".data ++ ((dottedIdent (p :: ps)).data ++ '\n' :: body.data)) := by
    have h1 : "SECTION: ".data = 'S' :: "ECTION: ".data := by decide
    rw [h1]
    rfl
  have hforce : forceNL ("SECTION: ".data ++
      ((dottedIdent (p :: ps)).data ++ '\n' :: body.data)) =
      '\n' :: ("SECTION: ".data ++ ((dottedIdent (p :: ps)).data ++ '\n' :: body.data)) := by
    rw [hconsS] at hCS ⊢
    exact forceNL_marker_head _ hCS htail_noMk'
  -- collapsing
  have hxs_nonl : ∀ c ∈ "SECTION: ".data ++ (dottedIdent (p :: ps)).data, c ≠ '\n' := by
    intro c hc
    rcases List.mem_append.mp hc with hc | hc
    · intro heq
      subst heq
      exact absurd hc (by decide)
    · exact (digit_or_dot_props c (hidc_chars c hc)).2.1
  have hassoc : "SECTION: ".data ++ ((dottedIdent (p :: ps)).data ++ '\n' :: body.data) =
      ("SECTION: ".data ++ (dottedIdent (p :: ps)).data) ++ '\n' :: body.data := by
    simp
  have hcollapse := collapseNL_single
    ("SECTION: ".data ++ (dottedIdent (p :: ps)).data) body.data
    (by simp) hxs_nonl hadj
  unfold normalizeFSD
  rw [hT, hRC, hforce, hassoc, hcollapse]


/-- Building the pair list from the single match: the slice runs from the
match end to the end of the text. -/
lemma buildPairs_single_slice (A b idc : List Char) :
    buildPairs (('\n' :: A) ++ '\n' :: b)
      [(idc, 0, (A ++ '\n' :: b).length - b.length)] =
      [(String.mk (pyStrip idc), String.mk (pyStrip ('\n' :: b)))] := by
  have he : (A ++ '\n' :: b).length - b.length = ('\n' :: A).length := by
    simp only [List.length_append, List.length_cons]
    omega
  rw [he]
  simp only [buildPairs]
  rw [List.drop_left]
  have hlen : (('\n' :: A) ++ '\n' :: b).length - ('\n' :: A).length =
      ('\n' :: b).length := by
    simp only [List.length_append, List.length_cons]
    omega
  rw [hlen, List.take_length]

/-- Parsing a single well-formed section: the result maps the dotted
identifier to the stripped body. -/
lemma parse_single_section (p : String) (ps : List String) (body : String)
    (hp : p.data ≠ [] ∧ ∀ c ∈ p.data, isDigitC c = true)
    (hps : ∀ q ∈ ps, q.data ≠ [] ∧ ∀ c ∈ q.data, isDigitC c = true)
    (hcr : ∀ c ∈ body.data, c ≠ '\x0d')
    (hadj : hasAdjNL body.data = false)
    (hmarker : ∀ n, afterMarkerCI (body.data.drop n) = none) :
    parse_fsd_sections ("SECTION: " ++ dottedIdent (p :: ps) ++ "\x0a" ++ body) =
      [(dottedIdent (p :: ps), pyStripStr body)] := by
  have hidc_chars : ∀ c ∈ (dottedIdent (p :: ps)).data, isDigitC c = true ∨ c = '.' :=
    dottedIdent_chars p ps hp.2 (fun q hq => (hps q hq).2)
  obtain ⟨d, ds, hpd⟩ := List.exists_cons_of_ne_nil hp.1
  have hd_digit : isDigitC d = true := hp.2 d (by rw [hpd]; simp)
  have hidc_shape : (dottedIdent (p :: ps)).data = d :: (ds ++ dotJoin ps) := by
    rw [dottedIdent_data, hpd]
    rfl
  have hnorm := normalize_single p ps body hp hps hcr hadj hmarker
  -- the header match over the normalized text
  have hr_nl : ∀ e : Char,
      ('\n' :: body.data.dropWhile (fun x => x = '\n')).head? = some e →
      (isDigitC e = false ∧ e ≠ '.') := by
    intro e he
    have he' : e = '\n' := (Option.some.inj he).symm
    rw [he']
    exact ⟨by decide, by decide⟩
  have hnum : readNumber ((dottedIdent (p :: ps)).data ++
      '\n' :: body.data.dropWhile (fun x => x = '\n')) =
      some ((dottedIdent (p :: ps)).data,
        '\n' :: body.data.dropWhile (fun x => x = '\n')) :=
    readNumber_dotted p ps hp hps _ hr_nl
  have hX_nows : List.dropWhile isPySpace ((dottedIdent (p :: ps)).data ++
      '\n' :: body.data.dropWhile (fun x => x = '\n')) =
      (dottedIdent (p :: ps)).data ++ '\n' :: body.data.dropWhile (fun x => x = '\n') := by
    rw [hidc_shape, List.cons_append]
    exact List.dropWhile_cons_of_neg
      (by simp [(digit_or_dot_props d (Or.inl hd_digit)).2.2.2])
  have hmatch : matchHeader ('\n' :: (("SECTION: ".data ++ (dottedIdent (p :: ps)).data) ++
      '\n' :: body.data.dropWhile (fun x => x = '\n'))) =
      some ((dottedIdent (p :: ps)).data,
        '\n' :: body.data.dropWhile (fun x => x = '\n')) := by
    unfold matchHeader dropWs
    rw [List.dropWhile_cons_of_pos (by decide)]
    have hheads : ("SECTION: ".data ++ (dottedIdent (p :: ps)).data) ++
        '\n' :: body.data.dropWhile (fun x => x = '\n') =
        'S' :: ("ECTION: ".data ++ ((dottedIdent (p :: ps)).data ++
          '\n' :: body.data.dropWhile (fun x => x = '\n'))) := by
      have h1 : "SECTION: ".data = 'S' :: "ECTION: ".data := by decide
      rw [h1]
      simp
    rw [hheads, List.dropWhile_cons_of_neg (by decide), ← hheads]
    have hsplit : ("SECTION: ".data ++ (dottedIdent (p :: ps)).data) ++
        '\n' :: body.data.dropWhile (fun x => x = '\n') =
        "SECTION".data ++ (':' :: ' ' :: ((dottedIdent (p :: ps)).data ++
          '\n' :: body.data.dropWhile (fun x => x = '\n'))) := by
      have h9 : "SECTION: ".data = "SECTION".data ++ [':', ' '] := by decide
      rw [h9]
      simp
    rw [hsplit]
    rw [afterMarkerCI_intro _ ':' (' ' :: ((dottedIdent (p :: ps)).data ++
      '\n' :: body.data.dropWhile (fun x => x = '\n')))
      (by unfold dropWs; exact List.dropWhile_cons_of_neg (by decide)) (Or.inl rfl)]
    unfold dropWs
    rw [List.dropWhile_cons_of_pos (by decide), hX_nows, hnum]
  have hfind := findMarkers_single
    (("SECTION: ".data ++ (dottedIdent (p :: ps)).data) ++
      '\n' :: body.data.dropWhile (fun x => x = '\n'))
    (body.data.dropWhile (fun x => x = '\n'))
    (dottedIdent (p :: ps)).data
    hmatch (body_suffix_no_marker body.data hmarker)
  -- the slice from the match end to the end of the text is the body
  have hpairs : sectionPairs ("SECTION: " ++ dottedIdent (p :: ps) ++ "\x0a" ++ body) =
      [(dottedIdent (p :: ps), pyStripStr body)] := by
    simp only [sectionPairs]
    rw [hnorm, hfind]
    have hA : '\n' :: (("SECTION: ".data ++ (dottedIdent (p :: ps)).data) ++
        '\n' :: body.data.dropWhile (fun x => x = '\n')) =
        ('\n' :: ("SECTION: ".data ++ (dottedIdent (p :: ps)).data)) ++
          '\n' :: body.data.dropWhile (fun x => x = '\n') := by
      simp
    rw [hA, buildPairs_single_slice]
    have hstrip_idc : pyStrip (dottedIdent (p :: ps)).data = (dottedIdent (p :: ps)).data :=
      pyStrip_eq_self_of_no_ws _
        (fun c hc => (digit_or_dot_props c (hidc_chars c hc)).2.2.2)
    rw [hstrip_idc, String.mk_data_eq]
    rw [pyStrip_cons_ws _ _ (by decide), pyStrip_dropWhile_nl]
    rfl
  unfold parse_fsd_sections
  rw [hpairs]
  rfl


/-- Marker-freedom needs checking only at positions inside the text. -/
lemma afterMarkerCI_drop_all (body : List Char)
    (h : ∀ n ∈ List.range body.length, afterMarkerCI (body.drop n) = none) :
    ∀ n, afterMarkerCI (body.drop n) = none := by
  intro n
  by_cases hn : n < body.length
  · exact h n (List.mem_range.mpr hn)
  · rw [List.drop_eq_nil_of_le (by omega)]
    rfl

/-- C4 counterexample: the claim that
`parse_fsd_sections ("SECTION: " + id + "\n" + body)` equals
`{id: body.strip()}` for every body fails when the body itself contains a
marker: with `id = "1"` and `body = "SECTION: 2\nX"` the parse yields two
sections, not one section with the literal body. -/
theorem C4_counterexample :
    parse_fsd_sections ("SECTION: " ++ "1" ++ "\x0a" ++ "SECTION: 2\x0aX") =
      [("1", ""), ("2", "X")] ∧
    parse_fsd_sections ("SECTION: " ++ "1" ++ "\x0a" ++ "SECTION: 2\x0aX") ≠
      [("1", pyStripStr "SECTION: 2\x0aX")] := by
  constructor
  · decide
  · decide

/-- C4 (amended): for every dotted numeric identifier — a non-empty
dot-separated list of non-empty digit groups — and every body containing no
carriage return, no two adjacent newlines, and no occurrence of the
case-insensitive marker pattern `SECTION[:-]digits` at any position,
`parse_fsd_sections ("SECTION: " ++ id ++ "\n" ++ body)` is the single-entry
mapping `{id: body.strip()}`. -/
theorem C4_single_section_roundtrip (parts : List String) (body : String)
    (hne : parts ≠ [])
    (hparts : ∀ p ∈ parts, p.data ≠ [] ∧ ∀ c ∈ p.data, isDigitC c = true)
    (hcr : ∀ c ∈ body.data, c ≠ '\x0d')
    (hadj : hasAdjNL body.data = false)
    (hmarker : ∀ n, afterMarkerCI (body.data.drop n) = none) :
    parse_fsd_sections ("SECTION: " ++ dottedIdent parts ++ "\x0a" ++ body) =
      [(dottedIdent parts, pyStripStr body)] := by
  cases parts with
  | nil => exact absurd rfl hne
  | cons p ps =>
    exact parse_single_section p ps body (hparts p (by simp))
      (fun q hq => hparts q (by simp [hq])) hcr hadj hmarker

/-- Witness for C4 (amended), at identifier `6.5` and body
`"Hello world"`. -/
theorem C4_witness :
    (["6", "5"] : List String) ≠ [] ∧
    dottedIdent ["6", "5"] = "6.5" ∧
    parse_fsd_sections ("SECTION: " ++ dottedIdent ["6", "5"] ++ "\x0a" ++ "Hello world") =
      [(dottedIdent ["6", "5"], pyStripStr "Hello world")] :=
  ⟨by decide, by decide,
    C4_single_section_roundtrip ["6", "5"] "Hello world" (by decide) (by decide)
      (by decide) (by decide)
      (afterMarkerCI_drop_all ("Hello world" : String).data (by decide))⟩

end FSDUDD
